import Mathlib

/-!
Shallow embedding of the YouTube-transcript utility (a Next.js app) for
verification of its natural-language specification.

Strings are modelled as `List Char` (the character sequence of a JavaScript
string).  JavaScript numbers arising from `parseFloat` / `parseInt` on the
decimal inputs this code handles are modelled as `Option ℚ`, where `none`
models `NaN` (which propagates through arithmetic) and `some q` models a
finite value.  The embedded `parseFloatJS` / `parseIntJS` model the JavaScript
functions on decimal inputs: leading spaces, an optional sign, digits and a
decimal point (the exponent and hexadecimal forms, which no recognized or
analysed input uses, are not modelled).
-/

/-- Character list of a string literal. -/
def strL (s : String) : List Char := s.data

/-- Model of JavaScript `String.prototype.includes` for a single character. -/
def hasChar (l : List Char) (c : Char) : Bool := l.any (fun x => x == c)

/-- Model of JavaScript `String.prototype.includes` for a substring:
`includesSub hay needle` is true when `needle` occurs contiguously in `hay`. -/
def includesSub : List Char → List Char → Bool
  | [], needle => needle.isEmpty
  | c :: t, needle => needle.isPrefixOf (c :: t) || includesSub t needle

/-- Model of JavaScript `str.replace(c, '')` for a single-character pattern:
removes the first occurrence of `c`, if any. -/
def removeFirst (c : Char) : List Char → List Char
  | [] => []
  | x :: xs => if x = c then xs else x :: removeFirst c xs

/-- Splits a list at the first occurrence of `c`: returns the part before it
and, when `c` occurs, the part after it. -/
def splitFirst (c : Char) (l : List Char) : List Char × Option (List Char) :=
  match l.dropWhile (fun x => x != c) with
  | [] => (l.takeWhile (fun x => x != c), none)
  | _ :: r => (l.takeWhile (fun x => x != c), some r)

/-- Model of JavaScript `String.prototype.split` on a one-character separator:
`"a:b:".split(':') = ["a","b",""]`, `"".split(':') = [""]`. -/
def splitOnChar (sep : Char) : List Char → List (List Char)
  | [] => [[]]
  | c :: r =>
    if c = sep then [] :: splitOnChar sep r
    else
      match splitOnChar sep r with
      | [] => [[c]]
      | h :: t => (c :: h) :: t

/-- JavaScript whitespace test restricted to the common whitespace characters. -/
def isWS (c : Char) : Bool := c == ' ' || c == '\t' || c == '\n' || c == '\r'

/-- Model of JavaScript `String.prototype.trim`. -/
def trimJS (l : List Char) : List Char :=
  ((l.dropWhile isWS).reverse.dropWhile isWS).reverse

/-- Model of JavaScript `Array.prototype.join(' ')` on an array of strings. -/
def joinSpace : List (List Char) → List Char
  | [] => []
  | [x] => x
  | x :: y :: t => x ++ ' ' :: joinSpace (y :: t)

/-- Base-10 value of a digit string, most significant digit first. -/
def digitsVal (ds : List Char) : ℕ :=
  ds.foldl (fun a c => 10 * a + (c.toNat - 48)) 0

/-- Reads an optional leading `-` or `+` sign; returns whether the value is
negated and the remaining characters. -/
def parseSign (l : List Char) : Bool × List Char :=
  match l with
  | [] => (false, [])
  | c :: r => if c = '-' then (true, r) else if c = '+' then (false, r) else (false, c :: r)

/-- Unsigned part of JavaScript `parseFloat`: a digit run, an optional decimal
point and a further digit run; `none` (NaN) when no digit is found; trailing
non-numeric characters are ignored. -/
def parseUnsignedFloat (cs : List Char) : Option ℚ :=
  let ip := cs.takeWhile Char.isDigit
  let r1 := cs.dropWhile Char.isDigit
  match r1 with
  | [] => if ip.isEmpty then none else some (digitsVal ip)
  | c :: r2 =>
    if c = '.' then
      let fp := r2.takeWhile Char.isDigit
      if ip.isEmpty && fp.isEmpty then none
      else some ((digitsVal ip : ℚ) + (digitsVal fp : ℚ) / 10 ^ fp.length)
    else if ip.isEmpty then none else some (digitsVal ip)

/-- Model of JavaScript `parseFloat` on decimal inputs; `none` models `NaN`. -/
def parseFloatJS (cs : List Char) : Option ℚ :=
  let cs1 := cs.dropWhile (fun c => c == ' ')
  let sg := parseSign cs1
  (parseUnsignedFloat sg.2).map (fun q => if sg.1 then -q else q)

/-- Model of JavaScript `parseInt` (radix 10) on decimal inputs; `none`
models `NaN`; trailing non-digit characters are ignored. -/
def parseIntJS (cs : List Char) : Option ℚ :=
  let cs1 := cs.dropWhile (fun c => c == ' ')
  let sg := parseSign cs1
  let ds := sg.2.takeWhile Char.isDigit
  if ds.isEmpty then none
  else some (if sg.1 then -(digitsVal ds : ℚ) else (digitsVal ds : ℚ))

/-!
Timestamp Codec — embedded from `parseTimestamp`, `createTimestampUrl` and the
display formatting of the transcript pages (src/unnamed/part_000 and
src/unnamed/part_004; both files contain the same `parseTimestamp` and
`createTimestampUrl`).
-/

/-- Model of `timestamp.replace(/[\[\]]/g, '')`: removes every square bracket. -/
def stripBrackets (l : List Char) : List Char :=
  l.filter (fun c => !(c == '[') && !(c == ']'))

/-- Embedding of `parseTimestamp` (src/unnamed/part_000 lines 184–207 and
src/unnamed/part_004 lines 88–111): strips brackets; if the remainder contains
an `s`, parses it as `parseFloat` after deleting the first `s`; otherwise if it
contains a `:`, splits on `:` and combines two or three parts; otherwise
returns `0`.  `none` models a `NaN` result. -/
def parseTimestamp (timestamp : List Char) : Option ℚ :=
  let timeStr := stripBrackets timestamp
  if hasChar timeStr 's' then
    parseFloatJS (removeFirst 's' timeStr)
  else if hasChar timeStr ':' then
    match splitOnChar ':' timeStr with
    | [m, s] =>
      match parseIntJS m, parseFloatJS s with
      | some a, some b => some (a * 60 + b)
      | _, _ => none
    | [h, m, s] =>
      match parseIntJS h, parseIntJS m, parseFloatJS s with
      | some a, some b, some c => some (a * 3600 + b * 60 + c)
      | _, _, _ => none
    | _ => some 0
  else some 0

/-- Parsed URL record, modelling the WHATWG `URL` object as the repository
uses it: scheme, hostname, pathname (with its leading slash) and the decoded
search-parameter list in order.  `new URL(...)` / `url.toString()` are the
platform's parse and serialise between this record and the string form. -/
structure JsUrl where
  scheme : List Char
  host : List Char
  path : List Char
  params : List (List Char × List Char)
deriving DecidableEq, Repr

/-- First-occurrence update used by `URLSearchParams.set`: replaces the value
of the first entry with key `k` and deletes the remaining entries with that
key. -/
def setFirstParam (k v : List Char) : List (List Char × List Char) → List (List Char × List Char)
  | [] => []
  | (k2, v2) :: t =>
    if k2 = k then (k, v) :: t.filter (fun p => p.1 ≠ k)
    else (k2, v2) :: setFirstParam k v t

/-- Model of `URLSearchParams.set(k, v)`: updates the first `k` entry and
drops later ones, or appends `(k, v)` when `k` is absent. -/
def searchParamsSet (ps : List (List Char × List Char)) (k v : List Char) :
    List (List Char × List Char) :=
  if ps.any (fun p => p.1 = k) then setFirstParam k v ps else ps ++ [(k, v)]

/-- Model of `URLSearchParams.get(k)`: the value of the first entry with
key `k`, or `null`. -/
def queryGet (ps : List (List Char × List Char)) (k : List Char) : Option (List Char) :=
  (ps.find? (fun p => p.1 == k)).map (fun p => p.2)

/-- Decimal digits of a natural number (fuelled recursion; the fuel `n + 1`
always suffices). -/
def natToCharsAux : ℕ → ℕ → List Char
  | 0, _ => []
  | fuel + 1, n =>
    if n < 10 then [Char.ofNat (48 + n)]
    else natToCharsAux fuel (n / 10) ++ [Char.ofNat (48 + n % 10)]

/-- Decimal string of a natural number, as JavaScript prints it. -/
def natToChars (n : ℕ) : List Char := natToCharsAux (n + 1) n

/-- Decimal string of an integer, as JavaScript prints an integral number. -/
def intToChars : ℤ → List Char
  | Int.ofNat n => natToChars n
  | Int.negSucc m => '-' :: natToChars (m + 1)

/-- The string `` `${Math.floor(parseTimestamp(timestamp))}s` `` interpolated
by `createTimestampUrl`; `Math.floor(NaN)` is `NaN` and prints as `"NaN"`. -/
def timestampParamValue (timestamp : List Char) : List Char :=
  match parseTimestamp timestamp with
  | some q => intToChars ⌊q⌋ ++ ['s']
  | none => strL "NaN" ++ ['s']

/-- Embedding of `createTimestampUrl` (src/unnamed/part_000 lines 210–215 and
src/unnamed/part_004 lines 114–119): floors the parsed offset and sets the `t`
search parameter on the base URL to `"{seconds}s"`. -/
def createTimestampUrl (timestamp : List Char) (base : JsUrl) : JsUrl :=
  { base with params := searchParamsSet base.params (strL "t") (timestampParamValue timestamp) }

/-- Model of `displayTime.replace(/(\d+)\.\d+s/, '$1s')`: deletes the
fractional part of the first `digits.digits s` occurrence. -/
def replaceFracS : List Char → List Char
  | [] => []
  | c :: t =>
    let d1 := (c :: t).takeWhile Char.isDigit
    let r1 := (c :: t).dropWhile Char.isDigit
    if d1.isEmpty then c :: replaceFracS t
    else
      match r1 with
      | [] => c :: replaceFracS t
      | c2 :: r2 =>
        if c2 = '.' then
          let d2 := r2.takeWhile Char.isDigit
          let r3 := r2.dropWhile Char.isDigit
          if d2.isEmpty then c :: replaceFracS t
          else
            match r3 with
            | [] => c :: replaceFracS t
            | c3 :: r4 => if c3 = 's' then d1 ++ 's' :: r4 else c :: replaceFracS t
        else c :: replaceFracS t

/-- Model of `displayTime.replace(/(\d+):(\d+):(\d+)\.\d+/, '$1:$2:$3')`:
deletes the fractional part of the first `d:d:d.d` occurrence. -/
def replaceHMSfrac : List Char → List Char
  | [] => []
  | c :: t =>
    let d1 := (c :: t).takeWhile Char.isDigit
    let r1 := (c :: t).dropWhile Char.isDigit
    (if d1.isEmpty then none
     else match r1 with
      | ':' :: r2 =>
        let d2 := r2.takeWhile Char.isDigit
        let r3 := r2.dropWhile Char.isDigit
        if d2.isEmpty then none
        else match r3 with
          | ':' :: r4 =>
            let d3 := r4.takeWhile Char.isDigit
            let r5 := r4.dropWhile Char.isDigit
            if d3.isEmpty then none
            else match r5 with
              | '.' :: r6 =>
                let d4 := r6.takeWhile Char.isDigit
                let r7 := r6.dropWhile Char.isDigit
                if d4.isEmpty then none
                else some (d1 ++ ':' :: d2 ++ ':' :: d3 ++ r7)
              | _ => none
          | _ => none
      | _ => none).getD (c :: replaceHMSfrac t)

/-- Model of `displayTime.replace(/(\d+):(\d+)\.\d+/, '$1:$2')`: deletes the
fractional part of the first `d:d.d` occurrence. -/
def replaceMSfrac : List Char → List Char
  | [] => []
  | c :: t =>
    let d1 := (c :: t).takeWhile Char.isDigit
    let r1 := (c :: t).dropWhile Char.isDigit
    (if d1.isEmpty then none
     else match r1 with
      | ':' :: r2 =>
        let d2 := r2.takeWhile Char.isDigit
        let r3 := r2.dropWhile Char.isDigit
        if d2.isEmpty then none
        else match r3 with
          | '.' :: r4 =>
            let d3 := r4.takeWhile Char.isDigit
            let r5 := r4.dropWhile Char.isDigit
            if d3.isEmpty then none
            else some (d1 ++ ':' :: d2 ++ r5)
          | _ => none
      | _ => none).getD (c :: replaceMSfrac t)

/-- Embedding of the `displayTime` computation of the saved-transcript detail
page (src/unnamed/part_004 lines 142–153): strips brackets, then truncates the
fractional seconds of an `s`-form or a colon-delimited form. -/
def formatDisplayTime (part : List Char) : List Char :=
  let d := stripBrackets part
  if hasChar d 's' && hasChar d '.' then replaceFracS d
  else if hasChar d ':' && hasChar d '.' then replaceMSfrac (replaceHMSfrac d)
  else d

/-!
Transcript Text Renderer — embedded from `renderTranscriptText` of the main
transcription page (src/unnamed/part_000 lines 218–259, which takes a
`hasTimestamps` flag and labels each link with the raw token) and of the
saved-transcript detail page (src/unnamed/part_004 lines 122–175, which labels
each link with the bracket-stripped, fraction-truncated token).  Both split the
text with `text.split(/(\[[^\]]+\])/g)` and test each part against
`/^\[[^\]]+\]$/`.
-/

/-- Scans for the first `]`; on success returns the characters before it and
the characters after it. -/
def scanToClose : List Char → Option (List Char × List Char)
  | [] => none
  | c :: cs =>
    if c = ']' then some ([], cs)
    else (scanToClose cs).map (fun p => (c :: p.1, p.2))

/-- Matcher for `[^\]]+\]` at the start of the input: at least one non-`]`
character followed by `]`; returns the run and the remaining characters. -/
def takeTokRest (cs : List Char) : Option (List Char × List Char) :=
  match cs with
  | [] => none
  | c :: cs2 =>
    if c = ']' then none
    else (scanToClose cs2).map (fun p => (c :: p.1, p.2))

/-- Leftmost match of `\[[^\]]+\]`: returns the text before the match, the
matched bracketed run, and the text after it. -/
def findTok : List Char → Option (List Char × List Char × List Char)
  | [] => none
  | c :: cs =>
    if c = '[' then
      match takeTokRest cs with
      | some (ins, r) => some ([], '[' :: (ins ++ [']']), r)
      | none => (findTok cs).map (fun q => (c :: q.1, q.2.1, q.2.2))
    else (findTok cs).map (fun q => (c :: q.1, q.2.1, q.2.2))

/-- Model of `text.split(/(\[[^\]]+\])/g)` (split with a captured separator),
with explicit fuel; each matched run strictly shortens the remainder, so fuel
`cs.length` suffices. -/
def splitTokF : ℕ → List Char → List (List Char)
  | 0, cs => [cs]
  | fuel + 1, cs =>
    match findTok cs with
    | none => [cs]
    | some (p, t, r) => p :: t :: splitTokF fuel r

/-- Model of `text.split(/(\[[^\]]+\])/g)`: alternating non-match chunks and
captured bracketed runs, in order. -/
def splitTok (cs : List Char) : List (List Char) := splitTokF cs.length cs

/-- Model of `part.match(/^\[[^\]]+\]$/)` as a Boolean: the whole part is one
bracketed run with a non-empty, `]`-free inside. -/
def jsTokenTest (p : List Char) : Bool :=
  match p with
  | [] => false
  | c :: rest =>
    c = '[' &&
      (let ins := rest.takeWhile (fun x => x != ']')
       let r := rest.dropWhile (fun x => x != ']')
       !ins.isEmpty && r == [']'])

/-- Display segment produced by a renderer: a plain text run, or a clickable
timestamp link carrying its label, target URL and original substring. -/
inductive RSegment where
  | text (s : List Char) : RSegment
  | link (label : List Char) (url : JsUrl) (original : List Char) : RSegment
deriving DecidableEq, Repr

/-- Original substring of the input text that a segment came from. -/
def segOriginal : RSegment → List Char
  | .text s => s
  | .link _ _ o => o

/-- Displayed label of a segment: `none` for plain text, the link label
otherwise. -/
def segLabel : RSegment → Option (List Char)
  | .text _ => none
  | .link l _ _ => some l

/-- Embedding of `renderTranscriptText` of the main transcription page
(src/unnamed/part_000 lines 218–259): fast path when `hasTimestamps` is false
or no `[` occurs; otherwise splits on bracketed runs, rendering each matching
part as a link whose label is the part itself (brackets included) and whose
target is `createTimestampUrl(part, videoUrl)`. -/
def renderTranscriptText (text : List Char) (hasTimestamps : Bool) (videoUrl : JsUrl) :
    List RSegment :=
  if !hasTimestamps || !hasChar text '[' then [.text text]
  else
    (splitTok text).map fun part =>
      if jsTokenTest part then .link part (createTimestampUrl part videoUrl) part
      else .text part

/-- Embedding of `renderTranscriptText` of the saved-transcript detail page
(src/unnamed/part_004 lines 122–175): same split, but each link's label is
`formatDisplayTime part` (brackets stripped, fractional seconds truncated). -/
def renderTranscriptTextDetail (text : List Char) (videoUrl : JsUrl) : List RSegment :=
  if !hasChar text '[' then [.text text]
  else
    (splitTok text).map fun part =>
      if jsTokenTest part then
        .link (formatDisplayTime part) (createTimestampUrl part videoUrl) part
      else .text part

/-!
Backend Response Normalizer — embedded from the POST handler of
src/src/app/api/transcribe-scrape/route.ts (lines 186–256: transcript
extraction, metadata fallbacks and the empty-text check) and from the success
path of src/src/app/api/transcribe-youtube/route.ts (lines 126–159).

JSON values are modelled by `Json`; `Json.null` also stands for JavaScript
`undefined` (the two are interchangeable for the truthiness tests this code
performs).  A non-string truthy segment field would raise a `TypeError` at
`.trim()` in the source (caught by the route's outer handler); `strOf` maps
such values, which no analysed input contains, to the empty string.
-/

/-- Minimal JSON value universe for the backend responses. -/
inductive Json where
  | null : Json
  | bool (b : Bool) : Json
  | num (q : ℚ) : Json
  | str (s : List Char) : Json
  | arr (xs : List Json) : Json
  | obj (fields : List (List Char × Json)) : Json

/-- Field access `value[k]` on an object; `none` models `undefined`. -/
def getField : Json → List Char → Option Json
  | .obj fs, k => (fs.find? (fun p => p.1 == k)).map (fun p => p.2)
  | _, _ => none

/-- JavaScript truthiness of a JSON value. -/
def truthy : Json → Bool
  | .null => false
  | .bool b => b
  | .num q => !(q == 0)
  | .str s => !s.isEmpty
  | .arr _ => true
  | .obj _ => true

/-- Truthiness of a possibly-undefined value. -/
def truthyO : Option Json → Bool
  | none => false
  | some j => truthy j

/-- Field access collapsing `undefined` to `null` (same truthiness). -/
def fld (d : Json) (k : List Char) : Json := (getField d k).getD Json.null

/-- Model of JavaScript `a || b` on JSON values. -/
def jsOrJ (a b : Json) : Json := if truthy a then a else b

/-- String contents of a JSON string; non-strings yield `""` (see the module
comment). -/
def strOf : Json → List Char
  | .str s => s
  | _ => []

/-- Test for `typeof x === 'string'`. -/
def isStrB : Json → Bool
  | .str _ => true
  | _ => false

/-- Test for `Array.isArray(x)`. -/
def isArrB : Json → Bool
  | .arr _ => true
  | _ => false

/-- Test for a plain object (`typeof x === 'object'` once arrays and `null`
have been handled by the earlier branches). -/
def isObjB : Json → Bool
  | .obj _ => true
  | _ => false

/-- Elements of a JSON array. -/
def arrOf : Json → List Json
  | .arr xs => xs
  | _ => []

/-- Per-segment text extraction of the scrape route's `.map` callback: a
string segment is itself; otherwise its `text`, else its `content`, else the
empty string. -/
def segText (s : Json) : List Char :=
  if isStrB s then strOf s
  else if truthyO (getField s (strL "text")) then strOf (fld s (strL "text"))
  else if truthyO (getField s (strL "content")) then strOf (fld s (strL "content"))
  else []

/-- Embedding of the scrape route's transcript-text extraction
(src/src/app/api/transcribe-scrape/route.ts lines 186–216): probes
`data.transcript` as a string, an array of segments (joined with spaces and
trimmed), or an object with a `text` field, then falls back to `data.text` and
`data.content`. -/
def extractTranscriptText (data : Json) : List Char :=
  if truthyO (getField data (strL "transcript")) then
    let tv := fld data (strL "transcript")
    if isStrB tv then strOf tv
    else if isArrB tv then
      trimJS (joinSpace (((arrOf tv).map segText).filter (fun t => !(trimJS t).isEmpty)))
    else if isObjB tv && truthyO (getField tv (strL "text")) then strOf (fld tv (strL "text"))
    else []
  else if truthyO (getField data (strL "text")) then strOf (fld data (strL "text"))
  else if truthyO (getField data (strL "content")) then strOf (fld data (strL "content"))
  else []

/-- Embedding of the scrape route's metadata extraction (lines 218–236):
title and duration from `data.video`, else top-level `title`/`name` with the
duration chain, else the ytdl fallbacks. -/
def scrapeVideoMeta (data fallbackTitle fallbackDuration : Json) : Json × Json :=
  if truthy (fld data (strL "video")) then
    let v := fld data (strL "video")
    (jsOrJ (fld v (strL "title")) (jsOrJ (fld v (strL "name")) fallbackTitle),
     jsOrJ (fld v (strL "duration")) (jsOrJ (fld v (strL "length")) fallbackDuration))
  else if truthy (fld data (strL "title")) then
    (fld data (strL "title"),
     jsOrJ (fld data (strL "duration"))
       (jsOrJ (fld data (strL "length"))
         (jsOrJ (fld data (strL "video_duration")) fallbackDuration)))
  else if truthy (fld data (strL "name")) then
    (fld data (strL "name"),
     jsOrJ (fld data (strL "duration"))
       (jsOrJ (fld data (strL "length"))
         (jsOrJ (fld data (strL "video_duration")) fallbackDuration)))
  else (fallbackTitle, fallbackDuration)

/-- Embedding of the duration re-probe (lines 238–242): when the duration is
still falsy, retry the top-level duration chain. -/
def scrapeAudioDuration (data d0 fallbackDuration : Json) : Json :=
  if truthy d0 then d0
  else
    jsOrJ (fld data (strL "duration"))
      (jsOrJ (fld data (strL "length"))
        (jsOrJ (fld data (strL "video_duration")) fallbackDuration))

/-- Outcome of the scrape route after a successful backend response:
the 400 "No transcript text could be extracted" response, or the 200 response
with the trimmed text and best-effort metadata. -/
inductive ScrapeResult where
  | noTranscript : ScrapeResult
  | ok (text : List Char) (audio_duration : Json) (video_title : Json) : ScrapeResult

/-- Embedding of the scrape route's normalization tail
(src/src/app/api/transcribe-scrape/route.ts lines 186–256): extracts the
transcript text and metadata, then returns the 400 response when the text is
empty or whitespace-only and the 200 response with `text.trim()` otherwise. -/
def scrapeNormalize (data fallbackTitle fallbackDuration : Json) : ScrapeResult :=
  let transcriptText := extractTranscriptText data
  let meta := scrapeVideoMeta data fallbackTitle fallbackDuration
  let dur := scrapeAudioDuration data meta.2 fallbackDuration
  if transcriptText.isEmpty || (trimJS transcriptText).isEmpty then .noTranscript
  else .ok (trimJS transcriptText) dur meta.1

/-- Body of a successful Python-transcript-service response, as the youtube
route reads it. -/
structure YtServiceData where
  text : List Char
  segments : Json
  total_duration : Json

/-- Response of the youtube route's success path. -/
structure YtResponse where
  text : List Char
  segments : Json
  status : List Char
  audio_duration : Json
  video_title : List Char
  has_timestamps : Bool

/-- Embedding of the youtube route's success response
(src/src/app/api/transcribe-youtube/route.ts lines 126–159): the service's
text is returned verbatim with status `completed`; there is no emptiness
check. -/
def youtubeSuccessResponse (td : YtServiceData) (audioDuration : Json)
    (videoTitle : List Char) (includeTimestamps : Bool) : YtResponse :=
  { text := td.text
  , segments := jsOrJ td.segments Json.null
  , status := strL "completed"
  , audio_duration := jsOrJ audioDuration td.total_duration
  , video_title := videoTitle
  , has_timestamps := includeTimestamps && hasChar td.text '[' }

/-!
Video-URL validation — embedded from `extractVideoId` of
src/src/app/api/transcribe-youtube/route.ts (lines 5–21) and the inline
validation block of src/src/app/api/transcribe-scrape/route.ts (lines 24–48).

`jsUrlParse` models the platform `new URL(...)` constructor restricted to the
`scheme://[userinfo@]host[:port][/path][?query][#fragment]` forms: strings
with no colon, an invalid scheme, or no `//` authority (forms the claims'
inputs never take) are treated as unparseable, matching the constructor
throwing.  Percent-decoding and host lowercasing are not modelled; the inputs
appearing in the theorems below use neither.
-/

/-- Characters allowed in a URL scheme after the leading letter. -/
def isSchemeChar (c : Char) : Bool :=
  c.isAlpha || c.isDigit || c == '+' || c == '-' || c == '.'

/-- Query-string parser of the `URL` constructor: splits on `&`, drops empty
pairs, and splits each pair at its first `=` (a missing `=` gives an empty
value). -/
def parseQuery (qs : List Char) : List (List Char × List Char) :=
  (splitOnChar '&' qs).filterMap (fun kv =>
    if kv.isEmpty then none
    else
      match splitFirst '=' kv with
      | (k, some v) => some (k, v)
      | (k, none) => some (k, []))

/-- Model of `new URL(s)`: `none` models the constructor throwing. -/
def jsUrlParse (s : List Char) : Option JsUrl :=
  match splitFirst ':' s with
  | (_, none) => none
  | (sch, some rest) =>
    if sch.isEmpty then none
    else if !(sch.all isSchemeChar) then none
    else if !(match sch with | c :: _ => c.isAlpha | [] => false) then none
    else
      match rest with
      | '/' :: '/' :: rest2 =>
        let auth := rest2.takeWhile (fun c => c != '/' && c != '?' && c != '#')
        let pq := rest2.dropWhile (fun c => c != '/' && c != '?' && c != '#')
        if auth.isEmpty || auth.any (fun c => c == ' ') then none
        else
          let hostPort :=
            match splitFirst '@' auth with
            | (_, some after) => after
            | (h, none) => h
          let host := hostPort.takeWhile (fun c => c != ':')
          if host.isEmpty then none
          else
            let pathRaw := pq.takeWhile (fun c => c != '?' && c != '#')
            let after := pq.dropWhile (fun c => c != '?' && c != '#')
            some
              { scheme := sch
              , host := host
              , path := if pathRaw.isEmpty then ['/'] else pathRaw
              , params :=
                  match after with
                  | '?' :: qs => parseQuery (qs.takeWhile (fun c => c != '#'))
                  | _ => [] }
      | _ => none

/-- Characters the regex fallback accepts in a video id (`[^&\n?#]`). -/
def regexIdChar (c : Char) : Bool :=
  c != '&' && c != '\n' && c != '?' && c != '#'

/-- Model of `url.match(/(?:youtube\.com\/watch\?v=|youtu\.be\/)([^&\n?#]+)/)`:
the captured id of the leftmost match, scanning left to right. -/
def regexFallback : List Char → Option (List Char)
  | [] => none
  | c :: t =>
    if (strL "youtube.com/watch?v=").isPrefixOf (c :: t) then
      let id := ((c :: t).drop (strL "youtube.com/watch?v=").length).takeWhile regexIdChar
      if id.isEmpty then regexFallback t else some id
    else if (strL "youtu.be/").isPrefixOf (c :: t) then
      let id := ((c :: t).drop (strL "youtu.be/").length).takeWhile regexIdChar
      if id.isEmpty then regexFallback t else some id
    else regexFallback t

/-- Embedding of `extractVideoId`
(src/src/app/api/transcribe-youtube/route.ts lines 5–21): parses the URL and
reads `v` for a hostname containing `youtube.com` or the path for one
containing `youtu.be`; when the URL constructor throws, falls back to the
regex; `none` models `null`. -/
def extractVideoId (url : List Char) : Option (List Char) :=
  match jsUrlParse url with
  | some u =>
    if includesSub u.host (strL "youtube.com") then queryGet u.params (strL "v")
    else if includesSub u.host (strL "youtu.be") then some (u.path.drop 1)
    else none
  | none => regexFallback url

/-- Falsiness of the extracted id as the route tests it (`if (!videoId)`):
true for `null` and for the empty string. -/
def idFalsy : Option (List Char) → Bool
  | none => true
  | some v => v.isEmpty

/-- Embedding of the scrape route's validation block
(src/src/app/api/transcribe-scrape/route.ts lines 24–48): `none` models every
path that ends in the 400 "Invalid YouTube URL format" response (the
constructor throwing, an unrecognized hostname, or an empty id). -/
def scrapeExtractVideoId (url : List Char) : Option (List Char) :=
  match jsUrlParse url with
  | none => none
  | some u =>
    if includesSub u.host (strL "youtube.com") then
      match queryGet u.params (strL "v") with
      | some v => if v.isEmpty then none else some v
      | none => none
    else if includesSub u.host (strL "youtu.be") then
      let vid := u.path.drop 1
      if vid.isEmpty then none else some vid
    else none

/-- Modelled from the spec: "any string parseable as a `youtube.com` URL with
a `v` query parameter, or a `youtu.be/<id>` short URL" — the URL parses, and
its host is `youtube.com` (or a subdomain) with a `v` parameter present, or
`youtu.be` with a non-empty id path. -/
def specParseableYoutube (s : List Char) : Bool :=
  match jsUrlParse s with
  | none => false
  | some u =>
    ((u.host == strL "youtube.com" || (strL ".youtube.com").isSuffixOf u.host) &&
       !(queryGet u.params (strL "v")).isNone) ||
    ((u.host == strL "youtu.be" || (strL ".youtu.be").isSuffixOf u.host) &&
       !(u.path.drop 1).isEmpty)

/-!
Persistence Gateway — embedded from src/src/lib/transcript-store.ts.  The
backing file is modelled by `TranscriptFile`: `absent` models
`fs.existsSync(DATA_FILE)` being false, `corrupt` models contents on which
`JSON.parse` (or the array `.map`) throws — `readTranscripts` catches and
returns `[]` — and `stored ts` models contents that parse back to `ts`
(JSON serialisation of the record list round-trips).  `generateId` uses
`Math.random`, and record timestamps use the clock, so `save` takes the fresh
id and the current time as arguments supplied by the environment.
-/

/-- Persisted transcript record (`SavedTranscript` of
src/src/lib/transcript-store.ts). -/
structure SavedTranscriptR where
  id : List Char
  videoTitle : List Char
  videoUrl : List Char
  text : List Char
  audioDuration : Option ℚ
  createdAt : ℕ
  updatedAt : ℕ
deriving DecidableEq, Repr

/-- Input of `save`: a record without `id`, `createdAt` and `updatedAt`. -/
structure NewTranscript where
  videoTitle : List Char
  videoUrl : List Char
  text : List Char
  audioDuration : Option ℚ
deriving DecidableEq, Repr

/-- State of the backing `data/transcripts.json` file. -/
inductive TranscriptFile where
  | absent : TranscriptFile
  | corrupt : TranscriptFile
  | stored (ts : List SavedTranscriptR) : TranscriptFile
deriving DecidableEq, Repr

/-- Embedding of `readTranscripts` (src/src/lib/transcript-store.ts lines
24–46): a missing file and unparseable contents both yield `[]`. -/
def readTranscripts : TranscriptFile → List SavedTranscriptR
  | .absent => []
  | .corrupt => []
  | .stored ts => ts

/-- Embedding of `FileTranscriptStore.save` (lines 62–79): reads the
collection, prepends the new record (`unshift`) with the fresh id and
timestamps, writes the whole collection back, and returns the record. -/
def storeSave (f : TranscriptFile) (t : NewTranscript) (newId : List Char) (now : ℕ) :
    SavedTranscriptR × TranscriptFile :=
  let ts := readTranscripts f
  let saved : SavedTranscriptR :=
    { id := newId
    , videoTitle := t.videoTitle
    , videoUrl := t.videoUrl
    , text := t.text
    , audioDuration := t.audioDuration
    , createdAt := now
    , updatedAt := now }
  (saved, .stored (saved :: ts))

/-- Embedding of `FileTranscriptStore.getAll` (lines 81–83). -/
def storeGetAll (f : TranscriptFile) : List SavedTranscriptR := readTranscripts f

/-- Embedding of `FileTranscriptStore.getById` (lines 85–88): first record
with the id, or `null`. -/
def storeGetById (f : TranscriptFile) (id : List Char) : Option SavedTranscriptR :=
  (readTranscripts f).find? (fun t => t.id == id)

/-- Embedding of `FileTranscriptStore.delete` (lines 90–101): removes the
first record with the id and writes back, returning `true`; returns `false`
(without writing) when no record matches. -/
def storeDelete (f : TranscriptFile) (id : List Char) : Bool × TranscriptFile :=
  let ts := readTranscripts f
  match ts.findIdx? (fun t => t.id == id) with
  | some i => (true, .stored (ts.eraseIdx i))
  | none => (false, f)

/-!
Specification-side notions: the three recognized timestamp shapes and the
numeric value a numeral denotes.  These are used to state the claims about
`parseTimestamp`.
-/

/-- All characters are decimal digits. -/
def allDigits (l : List Char) : Bool := l.all Char.isDigit

/-- Decimal numeral `ds` or `ds.fs` (integer part, optional fraction). -/
def decimalNum (ds fs : List Char) : List Char :=
  if fs.isEmpty then ds else ds ++ '.' :: fs

/-- Value denoted by the decimal numeral `decimalNum ds fs`. -/
def numValQ (ds fs : List Char) : ℚ :=
  (digitsVal ds : ℚ) + (digitsVal fs : ℚ) / 10 ^ fs.length

/-- Checker for a decimal numeral: a non-empty digit run, optionally followed
by `.` and another non-empty digit run. -/
def isNumeralB (l : List Char) : Bool :=
  let ds := l.takeWhile Char.isDigit
  let r := l.dropWhile Char.isDigit
  !ds.isEmpty &&
    (r.isEmpty ||
      (match r with
       | c :: r2 => c = '.' && !r2.isEmpty && r2.all Char.isDigit
       | [] => true))

/-- Modelled from the spec: the bracket-stripped value matches one of the
three recognized shapes `{seconds}s`, `MM:SS.s` or `HH:MM:SS.s` (fractional
seconds optional). -/
def isWellFormedValue (v : List Char) : Bool :=
  (match v.reverse with
   | 's' :: rest => isNumeralB rest.reverse
   | _ => false) ||
  (match splitOnChar ':' v with
   | [m, s] => (!m.isEmpty && allDigits m) && isNumeralB s
   | [h, m, s] => (!h.isEmpty && allDigits h) && (!m.isEmpty && allDigits m) && isNumeralB s
   | _ => false)

/-!
Helper lemmas about the character-list primitives.
-/

theorem digit_beq_false {d x : Char} (hd : d.isDigit = true) (hx : x.isDigit = false) :
    (d == x) = false := by
  cases h : d == x
  · rfl
  · exfalso
    rw [beq_iff_eq] at h
    subst h
    simp [hd] at hx

theorem digit_ne {d x : Char} (hd : d.isDigit = true) (hx : x.isDigit = false) : d ≠ x := by
  intro h
  subst h
  simp [hd] at hx

theorem digit_nbeq {x : Char} (hx : x.isDigit = false) :
    ∀ c : Char, c.isDigit = true → (!(c == x)) = true := by
  intro c hc
  rw [digit_beq_false hc hx]
  rfl

theorem allDigits_imp {l : List Char} (h : allDigits l = true) {p : Char → Bool}
    (hp : ∀ c, c.isDigit = true → p c = true) : l.all p = true := by
  rw [List.all_eq_true]
  intro c hc
  rw [allDigits, List.all_eq_true] at h
  exact hp c (h c hc)

theorem takeWhile_all {p : Char → Bool} : ∀ {l : List Char}, l.all p = true →
    l.takeWhile p = l := by
  intro l
  induction l with
  | nil => intro _; rfl
  | cons c t ih =>
    intro h
    rw [List.all_cons] at h
    obtain ⟨h1, h2⟩ := Bool.and_eq_true_iff.mp h
    rw [List.takeWhile_cons, h1]
    simp [ih h2]

theorem dropWhile_all {p : Char → Bool} : ∀ {l : List Char}, l.all p = true →
    l.dropWhile p = [] := by
  intro l
  induction l with
  | nil => intro _; rfl
  | cons c t ih =>
    intro h
    rw [List.all_cons] at h
    obtain ⟨h1, h2⟩ := Bool.and_eq_true_iff.mp h
    rw [List.dropWhile_cons, h1]
    simpa using ih h2

theorem takeWhile_app {p : Char → Bool} {c : Char} (hc : p c = false) :
    ∀ {l : List Char} (r : List Char), l.all p = true →
      (l ++ c :: r).takeWhile p = l := by
  intro l
  induction l with
  | nil =>
    intro r _
    rw [List.nil_append, List.takeWhile_cons, hc]
    simp
  | cons x t ih =>
    intro r h
    rw [List.all_cons] at h
    obtain ⟨h1, h2⟩ := Bool.and_eq_true_iff.mp h
    rw [List.cons_append, List.takeWhile_cons, h1]
    simp [ih r h2]

theorem dropWhile_app {p : Char → Bool} {c : Char} (hc : p c = false) :
    ∀ {l : List Char} (r : List Char), l.all p = true →
      (l ++ c :: r).dropWhile p = c :: r := by
  intro l
  induction l with
  | nil =>
    intro r _
    rw [List.nil_append, List.dropWhile_cons, hc]
    rfl
  | cons x t ih =>
    intro r h
    rw [List.all_cons] at h
    obtain ⟨h1, h2⟩ := Bool.and_eq_true_iff.mp h
    rw [List.cons_append, List.dropWhile_cons, h1]
    simpa using ih r h2

theorem filter_all {p : Char → Bool} : ∀ {l : List Char}, l.all p = true →
    l.filter p = l := by
  intro l
  induction l with
  | nil => intro _; rfl
  | cons c t ih =>
    intro h
    rw [List.all_cons] at h
    obtain ⟨h1, h2⟩ := Bool.and_eq_true_iff.mp h
    rw [List.filter_cons, h1]
    simp [ih h2]

theorem hasChar_app (l r : List Char) (c : Char) :
    hasChar (l ++ r) c = (hasChar l c || hasChar r c) := by
  simp [hasChar, List.any_append]

theorem hasChar_false {l : List Char} {c : Char}
    (h : l.all (fun x => !(x == c)) = true) : hasChar l c = false := by
  cases hA : hasChar l c
  · rfl
  · exfalso
    rw [hasChar, List.any_eq_true] at hA
    obtain ⟨x, hx, hbeq⟩ := hA
    rw [List.all_eq_true] at h
    have h2 := h x hx
    rw [hbeq] at h2
    simp at h2

theorem splitOnChar_ne {sep : Char} : ∀ {l : List Char},
    l.all (fun x => !(x == sep)) = true → splitOnChar sep l = [l] := by
  intro l
  induction l with
  | nil => intro _; rfl
  | cons c t ih =>
    intro h
    rw [List.all_cons] at h
    obtain ⟨h1, h2⟩ := Bool.and_eq_true_iff.mp h
    have hne : c ≠ sep := by
      intro he
      subst he
      simp at h1
    rw [splitOnChar, if_neg hne, ih h2]

theorem splitOnChar_app {sep : Char} : ∀ {a : List Char} (b : List Char),
    a.all (fun x => !(x == sep)) = true →
    splitOnChar sep (a ++ sep :: b) = a :: splitOnChar sep b := by
  intro a
  induction a with
  | nil =>
    intro b _
    rw [List.nil_append, splitOnChar, if_pos rfl]
  | cons c t ih =>
    intro b h
    rw [List.all_cons] at h
    obtain ⟨h1, h2⟩ := Bool.and_eq_true_iff.mp h
    have hne : c ≠ sep := by
      intro he
      subst he
      simp at h1
    rw [List.cons_append, splitOnChar, if_neg hne, ih b h2]

theorem removeFirst_app {c : Char} : ∀ {l : List Char} (r : List Char),
    l.all (fun x => !(x == c)) = true → removeFirst c (l ++ c :: r) = l ++ r := by
  intro l
  induction l with
  | nil =>
    intro r _
    rw [List.nil_append, removeFirst, if_pos rfl, List.nil_append]
  | cons x t ih =>
    intro r h
    rw [List.all_cons] at h
    obtain ⟨h1, h2⟩ := Bool.and_eq_true_iff.mp h
    have hne : x ≠ c := by
      intro he
      subst he
      simp at h1
    rw [List.cons_append, removeFirst, if_neg hne, ih r h2, List.cons_append]

theorem stripBrackets_wrap {v : List Char}
    (hv : v.all (fun c => !(c == '[') && !(c == ']')) = true) :
    stripBrackets ('[' :: (v ++ [']'])) = v := by
  rw [stripBrackets, List.filter_cons]
  have h1 : (!(('[' : Char) == '[') && !(('[' : Char) == ']')) = false := by decide
  rw [h1]
  simp only [Bool.false_eq_true, if_false]
  rw [List.filter_append]
  rw [filter_all hv]
  have h2 : List.filter (fun c => !(c == '[') && !(c == ']')) [']'] = [] := by decide
  rw [h2, List.append_nil]

theorem decimalNum_all {ds fs : List Char} (h1 : allDigits ds = true)
    (h2 : allDigits fs = true) {p : Char → Bool}
    (hp : ∀ c, c.isDigit = true → p c = true) (hdot : p '.' = true) :
    (decimalNum ds fs).all p = true := by
  rw [decimalNum]
  split
  · exact allDigits_imp h1 hp
  · rw [List.all_append, List.all_cons, allDigits_imp h1 hp, hdot, allDigits_imp h2 hp]
    rfl

theorem isEmpty_false {l : List Char} (h : l ≠ []) : l.isEmpty = false := by
  cases l
  · exact absurd rfl h
  · rfl

theorem dropWhile_cons_false {p : Char → Bool} {c : Char} {l : List Char}
    (h : p c = false) : (c :: l).dropWhile p = c :: l := by
  rw [List.dropWhile_cons, h]
  simp

theorem parseSign_other {c : Char} {l : List Char} (h1 : c ≠ '-') (h2 : c ≠ '+') :
    parseSign (c :: l) = (false, c :: l) := by
  rw [parseSign]
  simp [h1, h2]

theorem parseUnsignedFloat_num {ds fs : List Char} (hds : ds ≠ [])
    (h1 : allDigits ds = true) (h2 : allDigits fs = true) :
    parseUnsignedFloat (decimalNum ds fs) = some (numValQ ds fs) := by
  cases hfs : fs with
  | nil =>
    rw [decimalNum]
    simp only [List.isEmpty_nil, if_true]
    rw [parseUnsignedFloat]
    simp only
    rw [takeWhile_all h1, dropWhile_all h1]
    rw [isEmpty_false hds]
    simp only [Bool.false_eq_true, if_false]
    rw [numValQ]
    simp [digitsVal]
  | cons f ft =>
    subst hfs
    rw [decimalNum]
    simp only [List.isEmpty_cons, if_false, Bool.false_eq_true]
    rw [parseUnsignedFloat]
    simp only
    have hdot : Char.isDigit '.' = false := by decide
    rw [takeWhile_app hdot _ h1, dropWhile_app hdot _ h1]
    simp only [if_pos rfl]
    rw [takeWhile_all h2]
    rw [isEmpty_false hds]
    simp only [Bool.false_and, Bool.false_eq_true, if_false]
    rfl

theorem parseFloatJS_num {ds fs : List Char} (hds : ds ≠ [])
    (h1 : allDigits ds = true) (h2 : allDigits fs = true) :
    parseFloatJS (decimalNum ds fs) = some (numValQ ds fs) := by
  obtain ⟨d, ds', rfl⟩ : ∃ d ds', ds = d :: ds' := by
    cases ds
    · exact absurd rfl hds
    · exact ⟨_, _, rfl⟩
  have hd : Char.isDigit d = true := by
    rw [allDigits, List.all_cons] at h1
    exact (Bool.and_eq_true_iff.mp h1).1
  have hcons : ∃ t, decimalNum (d :: ds') fs = d :: t ∧
      decimalNum (d :: ds') fs = decimalNum (d :: ds') fs := by
    rw [decimalNum]
    split
    · exact ⟨ds', rfl, rfl⟩
    · exact ⟨ds' ++ '.' :: fs, rfl, rfl⟩
  obtain ⟨t, ht, -⟩ := hcons
  rw [parseFloatJS]
  rw [ht, dropWhile_cons_false (by rw [digit_beq_false hd (by decide)]),
    parseSign_other (digit_ne hd (by decide)) (digit_ne hd (by decide)), ← ht,
    parseUnsignedFloat_num hds h1 h2]
  rfl

theorem parseIntJS_num {m : List Char} (hm : m ≠ []) (h : allDigits m = true) :
    parseIntJS m = some ((digitsVal m : ℚ)) := by
  obtain ⟨d, m', rfl⟩ : ∃ d m', m = d :: m' := by
    cases m
    · exact absurd rfl hm
    · exact ⟨_, _, rfl⟩
  have hd : Char.isDigit d = true := by
    rw [allDigits, List.all_cons] at h
    exact (Bool.and_eq_true_iff.mp h).1
  rw [parseIntJS]
  rw [dropWhile_cons_false (by rw [digit_beq_false hd (by decide)]),
    parseSign_other (digit_ne hd (by decide)) (digit_ne hd (by decide))]
  rw [takeWhile_all h, isEmpty_false hm]
  simp

theorem noBracket_of_digit : ∀ c : Char, c.isDigit = true →
    (!(c == '[') && !(c == ']')) = true := by
  intro c hc
  rw [digit_beq_false hc (by decide), digit_beq_false hc (by decide)]
  rfl

theorem parseTimestamp_sTok {ds fs : List Char} (hds : ds ≠ [])
    (h1 : allDigits ds = true) (h2 : allDigits fs = true) :
    parseTimestamp ('[' :: ((decimalNum ds fs ++ ['s']) ++ [']'])) =
      some (numValQ ds fs) := by
  have hvAll : ((decimalNum ds fs ++ ['s']).all fun c => !(c == '[') && !(c == ']')) = true := by
    rw [List.all_append, decimalNum_all h1 h2 noBracket_of_digit (by decide)]
    decide
  have hnos : ((decimalNum ds fs).all fun x => !(x == 's')) = true :=
    decimalNum_all h1 h2 (digit_nbeq (by decide)) (by decide)
  have hs : hasChar (decimalNum ds fs ++ ['s']) 's' = true := by
    rw [hasChar_app]
    simp [hasChar]
  simp only [parseTimestamp]
  rw [stripBrackets_wrap hvAll, hs]
  simp only [if_true]
  rw [removeFirst_app [] hnos, List.append_nil, parseFloatJS_num hds h1 h2]

theorem parseTimestamp_msTok {m ds fs : List Char} (hm : m ≠ []) (hds : ds ≠ [])
    (h0 : allDigits m = true) (h1 : allDigits ds = true) (h2 : allDigits fs = true) :
    parseTimestamp ('[' :: ((m ++ ':' :: decimalNum ds fs) ++ [']'])) =
      some ((digitsVal m : ℚ) * 60 + numValQ ds fs) := by
  have hvAll : ((m ++ ':' :: decimalNum ds fs).all fun c => !(c == '[') && !(c == ']')) = true := by
    rw [List.all_append, List.all_cons, allDigits_imp h0 noBracket_of_digit,
      decimalNum_all h1 h2 noBracket_of_digit (by decide)]
    decide
  have hnos : ((m ++ ':' :: decimalNum ds fs).all fun x => !(x == 's')) = true := by
    rw [List.all_append, List.all_cons, allDigits_imp h0 (digit_nbeq (by decide)),
      decimalNum_all h1 h2 (digit_nbeq (by decide)) (by decide)]
    decide
  have hnoc : (m.all fun x => !(x == ':')) = true :=
    allDigits_imp h0 (digit_nbeq (by decide))
  have hnoc2 : ((decimalNum ds fs).all fun x => !(x == ':')) = true :=
    decimalNum_all h1 h2 (digit_nbeq (by decide)) (by decide)
  have hc : hasChar (m ++ ':' :: decimalNum ds fs) ':' = true := by
    rw [hasChar_app]
    simp [hasChar]
  simp only [parseTimestamp]
  rw [stripBrackets_wrap hvAll, hasChar_false hnos]
  simp only [Bool.false_eq_true, if_false]
  rw [hc]
  simp only [if_true]
  rw [splitOnChar_app _ hnoc, splitOnChar_ne hnoc2]
  simp only
  rw [parseIntJS_num hm h0, parseFloatJS_num hds h1 h2]

theorem parseTimestamp_hmsTok {hh m ds fs : List Char} (hhh : hh ≠ []) (hm : m ≠ [])
    (hds : ds ≠ []) (hq : allDigits hh = true) (h0 : allDigits m = true)
    (h1 : allDigits ds = true) (h2 : allDigits fs = true) :
    parseTimestamp ('[' :: ((hh ++ ':' :: (m ++ ':' :: decimalNum ds fs)) ++ [']'])) =
      some ((digitsVal hh : ℚ) * 3600 + (digitsVal m : ℚ) * 60 + numValQ ds fs) := by
  have hvAll : ((hh ++ ':' :: (m ++ ':' :: decimalNum ds fs)).all
      fun c => !(c == '[') && !(c == ']')) = true := by
    rw [List.all_append, List.all_cons, List.all_append, List.all_cons,
      allDigits_imp hq noBracket_of_digit, allDigits_imp h0 noBracket_of_digit,
      decimalNum_all h1 h2 noBracket_of_digit (by decide)]
    decide
  have hnos : ((hh ++ ':' :: (m ++ ':' :: decimalNum ds fs)).all
      fun x => !(x == 's')) = true := by
    rw [List.all_append, List.all_cons, List.all_append, List.all_cons,
      allDigits_imp hq (digit_nbeq (by decide)), allDigits_imp h0 (digit_nbeq (by decide)),
      decimalNum_all h1 h2 (digit_nbeq (by decide)) (by decide)]
    decide
  have hnoc : (hh.all fun x => !(x == ':')) = true :=
    allDigits_imp hq (digit_nbeq (by decide))
  have hnocm : (m.all fun x => !(x == ':')) = true :=
    allDigits_imp h0 (digit_nbeq (by decide))
  have hnoc2 : ((decimalNum ds fs).all fun x => !(x == ':')) = true :=
    decimalNum_all h1 h2 (digit_nbeq (by decide)) (by decide)
  have hc : hasChar (hh ++ ':' :: (m ++ ':' :: decimalNum ds fs)) ':' = true := by
    rw [hasChar_app]
    simp [hasChar]
  simp only [parseTimestamp]
  rw [stripBrackets_wrap hvAll, hasChar_false hnos]
  simp only [Bool.false_eq_true, if_false]
  rw [hc]
  simp only [if_true]
  rw [splitOnChar_app _ hnoc, splitOnChar_app _ hnocm, splitOnChar_ne hnoc2]
  simp only
  rw [parseIntJS_num hhh hq, parseIntJS_num hm h0, parseFloatJS_num hds h1 h2]

theorem scanToClose_spec : ∀ {l a b : List Char}, scanToClose l = some (a, b) →
    l = a ++ ']' :: b := by
  intro l
  induction l with
  | nil =>
    intro a b h
    exact Option.noConfusion h
  | cons c t ih =>
    intro a b h
    rw [scanToClose] at h
    by_cases hc : c = ']'
    · rw [if_pos hc] at h
      injection h with h2
      injection h2 with ha hb
      subst hc
      rw [← ha, ← hb, List.nil_append]
    · rw [if_neg hc] at h
      cases hm : scanToClose t with
      | none => rw [hm] at h; exact Option.noConfusion h
      | some p =>
        rw [hm] at h
        obtain ⟨p1, p2⟩ := p
        simp only [Option.map_some'] at h
        injection h with h2
        injection h2 with ha hb
        rw [← ha, ← hb, List.cons_append]
        rw [ih hm]

theorem takeTokRest_spec {cs ins r : List Char} (h : takeTokRest cs = some (ins, r)) :
    cs = ins ++ ']' :: r ∧ ins ≠ [] := by
  cases cs with
  | nil => exact Option.noConfusion h
  | cons c cs2 =>
    rw [takeTokRest] at h
    by_cases hc : c = ']'
    · rw [if_pos hc] at h; exact Option.noConfusion h
    · rw [if_neg hc] at h
      cases hm : scanToClose cs2 with
      | none => rw [hm] at h; exact Option.noConfusion h
      | some p =>
        rw [hm] at h
        obtain ⟨p1, p2⟩ := p
        simp only [Option.map_some'] at h
        injection h with h2
        injection h2 with ha hb
        constructor
        · rw [← ha, ← hb, List.cons_append, scanToClose_spec hm]
        · rw [← ha]
          exact List.cons_ne_nil c p1

theorem findTok_spec : ∀ {cs p t r : List Char}, findTok cs = some (p, t, r) →
    cs = p ++ t ++ r ∧ r.length < cs.length := by
  intro cs
  induction cs with
  | nil =>
    intro p t r h
    exact Option.noConfusion h
  | cons c cs2 ih =>
    intro p t r h
    rw [findTok] at h
    by_cases hc : c = '['
    · rw [if_pos hc] at h
      cases hm : takeTokRest cs2 with
      | some q =>
        rw [hm] at h
        obtain ⟨ins, rr⟩ := q
        simp only [Option.some.injEq, Prod.mk.injEq] at h
        obtain ⟨hp, ht, hr⟩ := h
        obtain ⟨heq, hne⟩ := takeTokRest_spec hm
        have heq2 : cs2 = ins ++ ']' :: rr := heq
        subst hp
        subst ht
        subst hr
        subst hc
        constructor
        · rw [heq2]
          simp
        · rw [heq2]
          simp [List.length_append]
          omega
      | none =>
        rw [hm] at h
        cases hf : findTok cs2 with
        | none => rw [hf] at h; exact Option.noConfusion h
        | some q =>
          rw [hf] at h
          obtain ⟨p2, t2, r2⟩ := q
          simp only [Option.map_some', Option.some.injEq, Prod.mk.injEq] at h
          obtain ⟨hp, ht, hr⟩ := h
          obtain ⟨heq, hlt⟩ := ih hf
          have heq2 : cs2 = p2 ++ t2 ++ r2 := heq
          have hlt2 : r2.length < cs2.length := hlt
          subst hp
          subst ht
          subst hr
          constructor
          · rw [List.cons_append, List.cons_append, ← heq2]
          · rw [List.length_cons]
            omega
    · rw [if_neg hc] at h
      cases hf : findTok cs2 with
      | none => rw [hf] at h; exact Option.noConfusion h
      | some q =>
        rw [hf] at h
        obtain ⟨p2, t2, r2⟩ := q
        simp only [Option.map_some', Option.some.injEq, Prod.mk.injEq] at h
        obtain ⟨hp, ht, hr⟩ := h
        obtain ⟨heq, hlt⟩ := ih hf
        have heq2 : cs2 = p2 ++ t2 ++ r2 := heq
        have hlt2 : r2.length < cs2.length := hlt
        subst hp
        subst ht
        subst hr
        constructor
        · rw [List.cons_append, List.cons_append, ← heq2]
        · rw [List.length_cons]
          omega

theorem splitTokF_join : ∀ (n : ℕ) (cs : List Char), cs.length ≤ n →
    (splitTokF n cs).flatten = cs := by
  intro n
  induction n with
  | zero =>
    intro cs h
    rw [splitTokF]
    simp
  | succ k ih =>
    intro cs h
    rw [splitTokF]
    cases hf : findTok cs with
    | none => simp
    | some q =>
      obtain ⟨p, t, r⟩ := q
      obtain ⟨heq, hlt⟩ := findTok_spec hf
      have heq2 : cs = p ++ t ++ r := heq
      have hlt2 : r.length < cs.length := hlt
      simp only [List.flatten_cons]
      rw [ih r (by omega), heq2, List.append_assoc]

theorem splitTok_join (cs : List Char) : (splitTok cs).flatten = cs :=
  splitTokF_join cs.length cs le_rfl

theorem renderSegs_orig (u : JsUrl) : ∀ parts : List (List Char),
    ((parts.map fun part =>
        if jsTokenTest part then RSegment.link part (createTimestampUrl part u) part
        else RSegment.text part).map segOriginal) = parts := by
  intro parts
  induction parts with
  | nil => rfl
  | cons h t ih =>
    rw [List.map_cons, List.map_cons, ih]
    by_cases hj : jsTokenTest h = true
    · rw [if_pos hj]
      rfl
    · rw [if_neg hj]
      rfl

theorem renderSegsDetail_orig (u : JsUrl) : ∀ parts : List (List Char),
    ((parts.map fun part =>
        if jsTokenTest part then
          RSegment.link (formatDisplayTime part) (createTimestampUrl part u) part
        else RSegment.text part).map segOriginal) = parts := by
  intro parts
  induction parts with
  | nil => rfl
  | cons h t ih =>
    rw [List.map_cons, List.map_cons, ih]
    by_cases hj : jsTokenTest h = true
    · rw [if_pos hj]
      rfl
    · rw [if_neg hj]
      rfl

theorem filter_idem {α : Type} (q : α → Bool) : ∀ l : List α,
    (l.filter q).filter q = l.filter q := by
  intro l
  induction l with
  | nil => rfl
  | cons h t ih =>
    rw [List.filter_cons]
    by_cases hq : q h = true
    · rw [if_pos hq, List.filter_cons, if_pos hq, ih]
    · rw [if_neg hq]
      exact ih

theorem setFirstParam_filter (k v : List Char) : ∀ ps : List (List Char × List Char),
    (setFirstParam k v ps).filter (fun p => p.1 ≠ k) = ps.filter (fun p => p.1 ≠ k) := by
  intro ps
  induction ps with
  | nil => rfl
  | cons h t ih =>
    obtain ⟨k2, v2⟩ := h
    rw [setFirstParam]
    by_cases hk : k2 = k
    · rw [if_pos hk]
      subst hk
      simp [List.filter_cons, filter_idem]
    · rw [if_neg hk]
      simp [List.filter_cons, hk]
      simpa using ih

theorem searchParamsSet_filter (ps : List (List Char × List Char)) (k v : List Char) :
    (searchParamsSet ps k v).filter (fun p => p.1 ≠ k) = ps.filter (fun p => p.1 ≠ k) := by
  rw [searchParamsSet]
  split
  · exact setFirstParam_filter k v ps
  · rw [List.filter_append]
    simp

theorem setFirstParam_find (k v : List Char) : ∀ ps : List (List Char × List Char),
    ps.any (fun p => p.1 = k) = true →
    (setFirstParam k v ps).find? (fun p => p.1 == k) = some (k, v) := by
  intro ps
  induction ps with
  | nil => intro h; simp at h
  | cons h t ih =>
    obtain ⟨k2, v2⟩ := h
    intro ha
    rw [setFirstParam]
    by_cases hk : k2 = k
    · rw [if_pos hk]
      exact List.find?_cons_of_pos _ (by simp)
    · rw [if_neg hk]
      rw [List.any_cons] at ha
      have ht : t.any (fun p => p.1 = k) = true := by
        simp only [decide_eq_true_eq] at ha
        rcases Bool.or_eq_true_iff.mp ha with h1 | h1
        · exact absurd (by simpa using h1) hk
        · exact h1
      rw [List.find?_cons_of_neg _ (by simp [hk])]
      exact ih ht

theorem find_append_pair (k v : List Char) : ∀ ps : List (List Char × List Char),
    ps.any (fun p => p.1 = k) = false →
    (ps ++ [(k, v)]).find? (fun p => p.1 == k) = some (k, v) := by
  intro ps
  induction ps with
  | nil =>
    intro _
    rw [List.nil_append]
    exact List.find?_cons_of_pos _ (by simp)
  | cons h t ih =>
    obtain ⟨k2, v2⟩ := h
    intro ha
    rw [List.any_cons] at ha
    have h1 : (k2 = k) = False := by
      by_contra hcc
      simp only [eq_iff_iff, iff_false] at hcc
      have : k2 = k := by
        by_contra hne
        exact hcc hne
      rw [this] at ha
      simp at ha
    have ht : t.any (fun p => p.1 = k) = false := by
      rcases Bool.or_eq_false_iff.mp ha with ⟨_, h2⟩
      exact h2
    rw [List.cons_append, List.find?_cons_of_neg _ (by simp [h1])]
    exact ih ht

theorem searchParamsSet_get (ps : List (List Char × List Char)) (k v : List Char) :
    queryGet (searchParamsSet ps k v) k = some v := by
  rw [queryGet, searchParamsSet]
  split
  · next h =>
    rw [setFirstParam_find k v ps h]
    rfl
  · next h =>
    rw [find_append_pair k v ps (Bool.eq_false_iff.mpr h)]
    rfl

/-!
Claim theorems.
-/

/-- C1 (counterexample): the token `[laughs]` is malformed (its stripped value
matches none of the three recognized shapes), yet `parseTimestamp` does not
return `0` — it returns `NaN` (the `s` branch fires and `parseFloat("laugh")`
is `NaN`), refuting the claim that every malformed token yields exactly `0`. -/
theorem c1_counterexample :
    isWellFormedValue (stripBrackets (strL "[laughs]")) = false ∧
    parseTimestamp (strL "[laughs]") = none ∧
    parseTimestamp (strL "[laughs]") ≠ some 0 := by
  refine ⟨by decide, by decide, by decide⟩

/-- C1 (amended): a malformed token parses to exactly `0` when its
bracket-stripped value contains no `s` and does not split on `:` into two or
three parts; malformed values containing an `s` (or with unparsable numeric
parts) may instead yield `NaN`. -/
theorem c1_amended (token : List Char)
    (h1 : hasChar (stripBrackets token) 's' = false)
    (h2 : (splitOnChar ':' (stripBrackets token)).length ≠ 2)
    (h3 : (splitOnChar ':' (stripBrackets token)).length ≠ 3) :
    parseTimestamp token = some 0 := by
  simp only [parseTimestamp]
  rw [h1]
  simp only [Bool.false_eq_true, if_false]
  by_cases hc : hasChar (stripBrackets token) ':' = true
  · rw [hc]
    simp only [if_true]
    rcases hsp : splitOnChar ':' (stripBrackets token) with _ | ⟨a, _ | ⟨b, _ | ⟨c, _ | ⟨d, tl⟩⟩⟩⟩
    · rfl
    · rfl
    · rw [hsp] at h2
      simp at h2
    · rw [hsp] at h3
      simp at h3
    · rfl
  · rw [Bool.eq_false_iff.mpr hc]
    simp

/-- C1 (witness): `[crowd]` (no `s`, no `:`) and `[1:2:3:4]` (four `:` parts)
are malformed tokens that do parse to `0`. -/
theorem c1_amended_witness :
    parseTimestamp (strL "[crowd]") = some 0 ∧ parseTimestamp (strL "[1:2:3:4]") = some 0 :=
  ⟨c1_amended (strL "[crowd]") (by decide) (by decide) (by decide),
   c1_amended (strL "[1:2:3:4]") (by decide) (by decide) (by decide)⟩

/-- C2: for every input text, every `hasTimestamps` flag and every base video
URL, concatenating the original substrings of the segments produced by both
transcript renderers, in order, reproduces the input text exactly. -/
theorem c2_render_lossless (text : List Char) (hasTimestamps : Bool) (u : JsUrl) :
    ((renderTranscriptText text hasTimestamps u).map segOriginal).flatten = text ∧
    ((renderTranscriptTextDetail text u).map segOriginal).flatten = text := by
  constructor
  · rw [renderTranscriptText]
    split
    · simp [segOriginal]
    · rw [renderSegs_orig, splitTok_join]
  · rw [renderTranscriptTextDetail]
    split
    · simp [segOriginal]
    · rw [renderSegsDetail_orig, splitTok_join]

/-- C3: for every well-formed token, `parseTimestamp` returns the exact
offset: `[Ns]` returns the value of the numeral `N`, `[MM:SS.s]` returns
`MM*60 + SS.s`, and `[HH:MM:SS.s]` returns `HH*3600 + MM*60 + SS.s`. -/
theorem c3_parse_exact :
    (∀ ds fs : List Char, ds ≠ [] → allDigits ds = true → allDigits fs = true →
      parseTimestamp ('[' :: ((decimalNum ds fs ++ ['s']) ++ [']'])) =
        some (numValQ ds fs)) ∧
    (∀ m ds fs : List Char, m ≠ [] → ds ≠ [] → allDigits m = true →
      allDigits ds = true → allDigits fs = true →
      parseTimestamp ('[' :: ((m ++ ':' :: decimalNum ds fs) ++ [']'])) =
        some ((digitsVal m : ℚ) * 60 + numValQ ds fs)) ∧
    (∀ hh m ds fs : List Char, hh ≠ [] → m ≠ [] → ds ≠ [] → allDigits hh = true →
      allDigits m = true → allDigits ds = true → allDigits fs = true →
      parseTimestamp ('[' :: ((hh ++ ':' :: (m ++ ':' :: decimalNum ds fs)) ++ [']'])) =
        some ((digitsVal hh : ℚ) * 3600 + (digitsVal m : ℚ) * 60 + numValQ ds fs)) :=
  ⟨fun _ _ hds h1 h2 => parseTimestamp_sTok hds h1 h2,
   fun _ _ _ hm hds h0 h1 h2 => parseTimestamp_msTok hm hds h0 h1 h2,
   fun _ _ _ _ hhh hm hds hq h0 h1 h2 => parseTimestamp_hmsTok hhh hm hds hq h0 h1 h2⟩

/-- C3 (witness): `[123.4s]` parses to `123.4`, `[02:03.4]` to `123.4`
(`2*60 + 3.4`), and `[01:02:03.4]` to `3723.4`. -/
theorem c3_parse_exact_witness :
    parseTimestamp (strL "[123.4s]") = some ((1234 : ℚ) / 10) ∧
    parseTimestamp (strL "[02:03.4]") = some ((1234 : ℚ) / 10) ∧
    parseTimestamp (strL "[01:02:03.4]") = some ((37234 : ℚ) / 10) := by
  refine ⟨?_, ?_, ?_⟩
  · have h := c3_parse_exact.1 (strL "123") (strL "4") (by decide) (by decide) (by decide)
    have hv : numValQ (strL "123") (strL "4") = (1234 : ℚ) / 10 := by
      rw [numValQ, show digitsVal (strL "123") = 123 from by decide,
        show digitsVal (strL "4") = 4 from by decide,
        show (strL "4").length = 1 from by decide]
      norm_num
    rw [hv] at h
    exact h
  · have h := c3_parse_exact.2.1 (strL "02") (strL "03") (strL "4")
      (by decide) (by decide) (by decide) (by decide) (by decide)
    have hv : (digitsVal (strL "02") : ℚ) * 60 + numValQ (strL "03") (strL "4") =
        (1234 : ℚ) / 10 := by
      rw [numValQ, show digitsVal (strL "02") = 2 from by decide,
        show digitsVal (strL "03") = 3 from by decide,
        show digitsVal (strL "4") = 4 from by decide,
        show (strL "4").length = 1 from by decide]
      norm_num
    rw [hv] at h
    exact h
  · have h := c3_parse_exact.2.2 (strL "01") (strL "02") (strL "03") (strL "4")
      (by decide) (by decide) (by decide) (by decide) (by decide) (by decide) (by decide)
    have hv : (digitsVal (strL "01") : ℚ) * 3600 + (digitsVal (strL "02") : ℚ) * 60 +
        numValQ (strL "03") (strL "4") = (37234 : ℚ) / 10 := by
      rw [numValQ, show digitsVal (strL "01") = 1 from by decide,
        show digitsVal (strL "02") = 2 from by decide,
        show digitsVal (strL "03") = 3 from by decide,
        show digitsVal (strL "4") = 4 from by decide,
        show (strL "4").length = 1 from by decide]
      norm_num
    rw [hv] at h
    exact h

/-- C5 (counterexample): the token `[-5s]` parses to `-5`, a negative value,
refuting the claim that every token yields a non-negative offset. -/
theorem c5_counterexample :
    parseTimestamp (strL "[-5s]") = some (-5) ∧ ¬ (0 : ℚ) ≤ -5 := by
  refine ⟨by decide, by decide⟩

/-- C5 (amended): every well-formed token parses to a non-negative offset;
malformed tokens may instead yield negative values or `NaN`. -/
theorem c5_amended :
    (∀ (ds fs : List Char) (q : ℚ), ds ≠ [] → allDigits ds = true → allDigits fs = true →
      parseTimestamp ('[' :: ((decimalNum ds fs ++ ['s']) ++ [']'])) = some q → 0 ≤ q) ∧
    (∀ (m ds fs : List Char) (q : ℚ), m ≠ [] → ds ≠ [] → allDigits m = true →
      allDigits ds = true → allDigits fs = true →
      parseTimestamp ('[' :: ((m ++ ':' :: decimalNum ds fs) ++ [']'])) = some q → 0 ≤ q) ∧
    (∀ (hh m ds fs : List Char) (q : ℚ), hh ≠ [] → m ≠ [] → ds ≠ [] →
      allDigits hh = true → allDigits m = true → allDigits ds = true → allDigits fs = true →
      parseTimestamp ('[' :: ((hh ++ ':' :: (m ++ ':' :: decimalNum ds fs)) ++ [']'])) =
        some q → 0 ≤ q) := by
  refine ⟨?_, ?_, ?_⟩
  · intro ds fs q hds h1 h2 hq
    rw [parseTimestamp_sTok hds h1 h2] at hq
    injection hq with hq2
    rw [← hq2, numValQ]
    positivity
  · intro m ds fs q hm hds h0 h1 h2 hq
    rw [parseTimestamp_msTok hm hds h0 h1 h2] at hq
    injection hq with hq2
    rw [← hq2, numValQ]
    positivity
  · intro hh m ds fs q hhh hm hds hq0 h0 h1 h2 hq
    rw [parseTimestamp_hmsTok hhh hm hds hq0 h0 h1 h2] at hq
    injection hq with hq2
    rw [← hq2, numValQ]
    positivity

/-- C5 (witness): the well-formed token `[123.4s]` parses to the non-negative
value `numValQ "123" "4" = 123.4`. -/
theorem c5_amended_witness : (0 : ℚ) ≤ numValQ (strL "123") (strL "4") :=
  c5_amended.1 (strL "123") (strL "4") (numValQ (strL "123") (strL "4"))
    (by decide) (by decide) (by decide)
    (parseTimestamp_sTok (by decide) (by decide) (by decide))

/-- C6: `createTimestampUrl` preserves the base URL's scheme, host, path and
all search parameters other than `t` (in order), and sets the `t` parameter to
the string `` `${Math.floor(parseTimestamp(token))}s` ``. -/
theorem c6_createTimestampUrl (ts : List Char) (u : JsUrl) :
    (createTimestampUrl ts u).scheme = u.scheme ∧
    (createTimestampUrl ts u).host = u.host ∧
    (createTimestampUrl ts u).path = u.path ∧
    (createTimestampUrl ts u).params.filter (fun p => p.1 ≠ strL "t") =
      u.params.filter (fun p => p.1 ≠ strL "t") ∧
    queryGet (createTimestampUrl ts u).params (strL "t") = some (timestampParamValue ts) :=
  ⟨rfl, rfl, rfl, searchParamsSet_filter u.params (strL "t") (timestampParamValue ts),
   searchParamsSet_get u.params (strL "t") (timestampParamValue ts)⟩

/-- Concrete base URL used by the renderer label theorems. -/
def sampleBaseUrl : JsUrl :=
  { scheme := strL "https"
  , host := strL "youtube.com"
  , path := strL "/watch"
  , params := [(strL "v", strL "abc")] }

/-- C7 (counterexample): in the main page's renderer the link produced for the
token `[123.4s]` is labelled with the raw token, brackets included — not with
the bracket-stripped, fraction-truncated `123s` the claim requires of every
rendered link. -/
theorem c7_counterexample :
    ((renderTranscriptText (strL "Hello [123.4s] world") true sampleBaseUrl).map segLabel) =
      [none, some (strL "[123.4s]"), none] ∧
    strL "[123.4s]" ≠ strL "123s" := by
  refine ⟨by decide, by decide⟩

/-- C7 (amended): the saved-transcript detail page labels each link with the
bracket-stripped, fraction-truncated value (`[123.4s]` → `123s`, `[02:03.4]` →
`02:03`, `[01:02:03.4]` → `01:02:03`); the main transcription page labels each
link with the raw token, brackets included. -/
theorem c7_amended :
    ((renderTranscriptTextDetail (strL "Hello [123.4s] world") sampleBaseUrl).map segLabel =
      [none, some (strL "123s"), none]) ∧
    ((renderTranscriptTextDetail (strL "[02:03.4] intro") sampleBaseUrl).map segLabel =
      [none, some (strL "02:03"), none]) ∧
    ((renderTranscriptTextDetail (strL "[01:02:03.4] outro") sampleBaseUrl).map segLabel =
      [none, some (strL "01:02:03"), none]) ∧
    ((renderTranscriptText (strL "Hello [123.4s] world") true sampleBaseUrl).map segLabel =
      [none, some (strL "[123.4s]"), none]) := by
  refine ⟨by decide, by decide, by decide, by decide⟩

/-- C4 (counterexample): the youtube-direct route's success path returns the
service's text verbatim with status `completed` and performs no emptiness
check — a backend response with empty text yields a successful response whose
`text` is empty, not a `NoTranscriptAvailable` error, refuting the claim for
that backend. -/
theorem c4_counterexample :
    (youtubeSuccessResponse ⟨[], Json.null, Json.null⟩ Json.null
      (strL "YouTube Video") false).text = [] ∧
    (youtubeSuccessResponse ⟨[], Json.null, Json.null⟩ Json.null
      (strL "YouTube Video") false).status = strL "completed" := by
  exact ⟨rfl, rfl⟩

/-- C4 (amended): the scrape backend's normalizer returns the 400
`NoTranscriptAvailable` response whenever the extracted text trims to empty,
and every successful scrape response carries non-empty text; the
youtube-direct backend performs no such check (see the counterexample). -/
theorem c4_amended (data fallbackTitle fallbackDuration : Json) :
    (trimJS (extractTranscriptText data) = [] →
      scrapeNormalize data fallbackTitle fallbackDuration = ScrapeResult.noTranscript) ∧
    (∀ text dur title, scrapeNormalize data fallbackTitle fallbackDuration =
      ScrapeResult.ok text dur title → text ≠ []) := by
  constructor
  · intro h
    simp only [scrapeNormalize]
    rw [h]
    simp
  · intro text dur title hok
    simp only [scrapeNormalize] at hok
    by_cases hcond : ((extractTranscriptText data).isEmpty ||
        (trimJS (extractTranscriptText data)).isEmpty) = true
    · rw [if_pos hcond] at hok
      exact ScrapeResult.noConfusion hok
    · rw [if_neg hcond] at hok
      injection hok with ht hd hm
      obtain ⟨-, hb⟩ := Bool.or_eq_false_iff.mp (Bool.eq_false_iff.mpr hcond)
      rw [← ht]
      intro hnil
      rw [hnil] at hb
      simp at hb

/-- C4 (witness): the spec's scenario — the scrape backend returns
`transcript: []` — trims to empty text and is classified as the
`NoTranscriptAvailable` error, not a successful empty transcript. -/
theorem c4_amended_witness :
    scrapeNormalize (Json.obj [(strL "transcript", Json.arr [])])
      (Json.str (strL "YouTube Video")) Json.null = ScrapeResult.noTranscript :=
  (c4_amended (Json.obj [(strL "transcript", Json.arr [])])
    (Json.str (strL "YouTube Video")) Json.null).1 rfl

/-- C8 (counterexample): the string `see youtu.be/abc` is not parseable as a
YouTube URL at all (the `URL` constructor throws), yet the youtube route's
`extractVideoId` accepts it via its regex fallback and returns `abc`, so the
request is not rejected as a validation failure. -/
theorem c8_counterexample :
    specParseableYoutube (strL "see youtu.be/abc") = false ∧
    extractVideoId (strL "see youtu.be/abc") = some (strL "abc") ∧
    idFalsy (extractVideoId (strL "see youtu.be/abc")) = false := by
  refine ⟨by decide, by decide, by decide⟩

/-- C8 (amended): both endpoints reject (extraction yields `null`, hence the
400 response before any backend call) every string that the URL parser cannot
parse and in which the regex fallback finds no `youtube.com/watch?v=` or
`youtu.be/` pattern, and every parseable URL whose hostname contains neither
`youtube.com` nor `youtu.be` as a substring; but an unparseable string that
merely contains such a pattern is accepted by the youtube endpoint's regex
fallback. -/
theorem c8_amended (s : List Char) :
    (jsUrlParse s = none → regexFallback s = none →
      extractVideoId s = none ∧ scrapeExtractVideoId s = none) ∧
    (∀ u : JsUrl, jsUrlParse s = some u →
      includesSub u.host (strL "youtube.com") = false →
      includesSub u.host (strL "youtu.be") = false →
      extractVideoId s = none ∧ scrapeExtractVideoId s = none) := by
  constructor
  · intro h1 h2
    constructor
    · rw [extractVideoId, h1, h2]
    · rw [scrapeExtractVideoId, h1]
  · intro u hu hy hb
    constructor
    · simp only [extractVideoId, hu, hy, hb]
      simp
    · simp only [scrapeExtractVideoId, hu, hy, hb]
      simp

/-- C8 (witness): `not a url` has no colon and no YouTube pattern, and both
endpoints' extraction reject it. -/
theorem c8_amended_witness :
    extractVideoId (strL "not a url") = none ∧
    scrapeExtractVideoId (strL "not a url") = none :=
  (c8_amended (strL "not a url")).1 (by decide) (by decide)

/-- C9: saving a transcript and then listing all transcripts returns the new
record first: `getAll` after `save` is the saved record consed onto the
previous listing. -/
theorem c9_save_then_first (f : TranscriptFile) (t : NewTranscript)
    (newId : List Char) (now : ℕ) :
    storeGetAll (storeSave f t newId now).2 = (storeSave f t newId now).1 :: storeGetAll f ∧
    (storeGetAll (storeSave f t newId now).2).head? = some (storeSave f t newId now).1 :=
  ⟨rfl, rfl⟩

/-- C10: when the backing file is absent or its contents are unparseable,
every read-side operation behaves as an empty store: `getAll` returns `[]`,
`getById` returns `null` for every id, and `delete` returns `false` for every
id without modifying the file. -/
theorem c10_read_errors_empty (id : List Char) :
    storeGetAll TranscriptFile.absent = [] ∧
    storeGetAll TranscriptFile.corrupt = [] ∧
    storeGetById TranscriptFile.absent id = none ∧
    storeGetById TranscriptFile.corrupt id = none ∧
    storeDelete TranscriptFile.absent id = (false, TranscriptFile.absent) ∧
    storeDelete TranscriptFile.corrupt id = (false, TranscriptFile.corrupt) :=
  ⟨rfl, rfl, rfl, rfl, rfl, rfl⟩
